import Mathlib

/-!
Verification of `cmd/gomobile/bind_androidapp.go` (package `main`) and the
`bind` helper (`NativeMeta`).  The Go functions `buildAAR`, `buildSrcJar`,
`buildJar`, `writeJar`, `androidAPIPath` and the native-library copy stage of
`goAndroidBind` are embedded shallowly:

* a `filepath.Walk` over a directory tree is embedded by its visit sequence —
  the ordered list of `(path, isDir, content, err)` records handed to the walk
  callback, with `path` relative to the walked root in host-separator form;
  the walk functions are folds of the Go callback over that sequence;
* the ZIP writers become lists of `(name, content)` entries appended in
  creation order; a Boolean oracle `cf` tells which entry creations fail
  (`zip.Writer.Create` returning an error);
* fallible operating-system calls (`os.Open` of the SDK platforms directory,
  `Readdir`, `ioutil.ReadDir`, `bootClasspath`, the `javac` subprocess)
  become `Except`-valued inputs;
* the process-wide configuration globals (`buildO`, `buildN`, `buildV`,
  `buildX`, `bindClasspath`, `tmpdir`) become an explicit `Config` record;
  `buildAAR` returns the record it leaves behind, since it assigns `buildO`.
-/

/-! ## String helpers

All string manipulation is routed through `List Char` so that concrete
instances reduce inside the kernel. -/

/-- The one-character string of a path separator. -/
def sepStr (sep : Char) : String := String.singleton sep

/-- `filepath.Join` of a parent and one child component (the only join shape
the embedded code uses).  An empty parent yields the bare child, matching the
relative-path slices the Go code builds. -/
def joinUnder (sep : Char) (pre name : String) : String :=
  if pre = "" then name else pre ++ sepStr sep ++ name

/-- `filepath.ToSlash`: replace the host separator by a forward slash. -/
def toSlash (sep : Char) (s : String) : String :=
  String.mk (s.data.map (fun c => if c = sep then '/' else c))

/-- `s[n:]` on a Go string (drop the first `n` characters). -/
def strDrop (s : String) (n : Nat) : String := String.mk (s.data.drop n)

/-- `s[:len(s)-n]` on a Go string (drop the last `n` characters). -/
def strDropRight (s : String) (n : Nat) : String :=
  String.mk (s.data.take (s.data.length - n))

/-- Does `p` occur at the start of `s` (over character lists)? -/
def listHasPfx : List Char → List Char → Bool
  | [], _ => true
  | _ :: _, [] => false
  | p :: ps, c :: cs => (p = c) && listHasPfx ps cs

/-- `strings.HasPrefix`. -/
def strStartsWith (s pre : String) : Bool := listHasPfx pre.data s.data

/-- `strings.HasSuffix`. -/
def strEndsWith (s suf : String) : Bool := listHasPfx suf.data.reverse s.data.reverse

/-- Does `pat` occur contiguously somewhere in `s` (over character lists)? -/
def listContains (pat : List Char) : List Char → Bool
  | [] => listHasPfx pat []
  | c :: cs => listHasPfx pat (c :: cs) || listContains pat cs

/-- Substring occurrence test: does `pat` occur contiguously in `s`? -/
def strContains (s pat : String) : Bool := listContains pat.data s.data

/-- Lookup in an association list, modelling a Go `map[string]string` read. -/
def lookupStr (n : String) : List (String × String) → Option String
  | [] => none
  | (k, v) :: ts => if k = n then some v else lookupStr n ts

/-- `strconv.Atoi`: optional sign, at least one digit, 64-bit range check. -/
def goAtoi (s : String) : Option Int :=
  let (sign, ds) : Int × List Char :=
    match s.data with
    | '+' :: rest => (1, rest)
    | '-' :: rest => (-1, rest)
    | rest => (1, rest)
  if ds = [] then none
  else if !ds.all Char.isDigit then none
  else
    let n : Nat := ds.foldl (fun a c => a * 10 + (c.toNat - 48)) 0
    let v : Int := sign * (n : Int)
    if v < -(2 ^ 63) then none
    else if v ≥ 2 ^ 63 then none
    else some v

/-- Accumulating worker of `goSplit`. -/
def goSplitAux (sep : Char) : List Char → List Char → List String
  | [], acc => [String.mk acc.reverse]
  | c :: cs, acc =>
      if c = sep then String.mk acc.reverse :: goSplitAux sep cs []
      else goSplitAux sep cs (c :: acc)

/-- `strings.Split` on a one-character separator.  Splitting the empty string
yields a single empty field, exactly as in Go. -/
def goSplit (s : String) (sep : Char) : List String := goSplitAux sep s.data []

/-- `filepath.Ext`: the suffix of the final path element starting at its last
dot, empty when the final element has no dot. -/
def filepathExt (sep : Char) (s : String) : String :=
  let r : Option (List Char) :=
    s.data.foldl
      (fun acc c =>
        if c = sep then none
        else if c = '.' then some ['.']
        else acc.map (fun l => l ++ [c]))
      none
  match r with
  | none => ""
  | some l => String.mk l

/-- Decidable equality of `Except` results (for concrete evaluation). -/
instance {ε α : Type} [DecidableEq ε] [DecidableEq α] : DecidableEq (Except ε α) := fun
  | .error e, .error f =>
      match decEq e f with
      | isTrue h => isTrue (h ▸ rfl)
      | isFalse h => isFalse fun q => h (Except.error.inj q)
  | .error _, .ok _ => isFalse fun q => Except.noConfusion q
  | .ok _, .error _ => isFalse fun q => Except.noConfusion q
  | .ok a, .ok b =>
      match decEq a b with
      | isTrue h => isTrue (h ▸ rfl)
      | isFalse h => isFalse fun q => h (Except.ok.inj q)

/-! ## Walk sequences

`filepath.Walk(root, fn)` hands `fn` one `(path, info, err)` triple per
visited entry, depth-first.  The model takes that visit sequence as the
description of the directory tree: each `Visit` carries the path relative to
the walked root (host separators), the `IsDir` bit, the file content, and the
walk-error argument (`some msg` models `err != nil` for that visit).  The
walked root directory itself is a visit with `isDir = true`. -/

structure Visit where
  path : String
  isDir : Bool
  content : String
  err : Option String
deriving DecidableEq

/-- A regular-file visit. -/
def vfile (path content : String) : Visit := ⟨path, false, content, none⟩

/-- A directory visit. -/
def vdir (path : String) : Visit := ⟨path, true, "", none⟩

/-- The regular files of an error-free walk, as (relative path, content)
pairs; directory visits contribute nothing. -/
def walkFiles (vs : List Visit) : List (String × String) :=
  (vs.filter (fun v => !v.isDir)).map (fun v => (v.path, v.content))

/-- Number of regular files in a walk sequence. -/
def walkFileCount (vs : List Visit) : Nat := (vs.filter (fun v => !v.isDir)).length

/-- A walk sequence whose every visit carries no walk error. -/
def cleanWalk (vs : List Visit) : Bool := vs.all (fun v => v.err = none)

/-! ## Shared configuration and archive model -/

/-- One ZIP archive under construction: the entries in creation order. -/
abbrev Archive := List (String × String)

/-- The process-wide configuration globals of `cmd/gomobile` read by the
embedded functions: `buildO` (output path), `buildN` (dry run), `buildV`
(verbose), `buildX` (print commands), `bindClasspath`, `tmpdir`. -/
structure Config where
  buildO : String
  buildN : Bool
  buildV : Bool
  buildX : Bool
  bindClasspath : String
  tmpdir : String
deriving DecidableEq

/-- A source package as `buildAAR` sees it: `p.Name`, `p.ImportPath`, and the
walk of `p.Dir + "/assets"` when that directory exists (`none` models the
`os.Stat` saying there is no assets directory). -/
structure Pkg where
  name : String
  importPath : String
  assets : Option (List Visit)
deriving DecidableEq

/-- `bind_androidapp.go` line 364: the minimum Android API level. -/
def minAndroidAPI : Int := 15

/-- `bind_androidapp.go` line 363. -/
def javacTargetVer : String := "1.7"

/-- Modelled from the spec: the Archive Writer "always writes a fixed manifest
entry first, at a fixed name, with fixed template content".  The constant
`manifestHeader` that `writeJar` prints is declared elsewhere in the
repository, outside `src/`; only its fixedness matters here. -/
def manifestHeader : String := "Manifest-Version: 1.0\x0aCreated-By: 1.0 (Go)\x0a\x0a"

/-- The error a failed `zip.Writer.Create(name)` reports in the model. -/
def createErrMsg (name : String) : String := "create " ++ name

/-- Lines 259-261: the `AndroidManifest.xml` content, `manifestFmt` applied to
`"go." + pkgs[0].Name + ".gojni"` and `minAndroidAPI`. -/
def manifestXmlContent (pkgName : String) : String :=
  "<manifest xmlns:android=\x22http://schemas.android.com/apk/res/android\x22 package=\x22go."
    ++ pkgName ++ ".gojni\x22>\x0a<uses-sdk android:minSdkVersion=\x22"
    ++ toString minAndroidAPI ++ "\x22/></manifest>"

/-- Line 267: the `proguard.txt` content (with `Fprintln`'s newline). -/
def proguardContent : String := "-keep class go.** \x7b *; \x7d\x0a"

/-- Line 304: the asset-conflict error message. -/
def conflictMsg (importPath name orig : String) : String :=
  "package " ++ importPath ++ " asset name conflict: " ++ name
    ++ " already added from package " ++ orig

/-- Line 233: the bad-output-suffix error message (`%q` abstracted as plain
double quotes). -/
def aarErrMsg (buildO : String) : String :=
  "output file name \x22" ++ buildO ++ "\x22 does not end in \x27.aar\x27"

/-- The byte stream that a nested jar written into one entry contributes; ZIP
serialization is abstracted by a length-prefixed concatenation. -/
def encodeJar (a : Archive) : String :=
  String.join (a.map (fun e =>
    toString e.1.length ++ ":" ++ e.1 ++ toString e.2.length ++ ":" ++ e.2))

/-! ## `writeJar` (lines 423-463) -/

/-- The walk callback of `writeJar` folded over the visit sequence: skip
directories, create one entry per regular file named by the slash-normalized
relative path, copy the content; a callback error or a failed create aborts
with that error. -/
def writeJarWalk (sep : Char) (cf : String → Bool)
    : List Visit → Archive → Archive × Option String
  | [], out => (out, none)
  | v :: vs, out =>
    match v.err with
    | some e => (out, some e)
    | none =>
      if v.isDir then writeJarWalk sep cf vs out
      else
        let name := toSlash sep v.path
        if cf name then (out, some (createErrMsg name))
        else writeJarWalk sep cf vs (out ++ [(name, v.content)])

/-- `writeJar(w, dir)`: nothing in dry-run mode, else the manifest entry first
and then the walk of `dir`. -/
def writeJar (sep : Char) (cf : String → Bool) (cfg : Config)
    (dirWalk : List Visit) : Except String Archive :=
  if cfg.buildN then .ok []
  else if cf "META-INF/MANIFEST.MF" then .error (createErrMsg "META-INF/MANIFEST.MF")
  else
    match writeJarWalk sep cf dirWalk [("META-INF/MANIFEST.MF", manifestHeader)] with
    | (_, some e) => .error e
    | (out, none) => .ok out

/-! ## `buildJar` (lines 367-421) -/

/-- The outside world `buildJar` touches: the result of `bootClasspath()`
(declared elsewhere in the repository, outside `src/` — modelled from the
spec: "a boot classpath (from 4.1's resolved platform)"), the external
compiler's verdict, and the walk of the scratch output directory it fills. -/
structure JarEnv where
  bootCP : Except String String
  javacRes : Except String Unit
  javacOut : List Visit
deriving DecidableEq

/-- Modelled from the spec: `runCmd` (declared elsewhere in the repository,
outside `src/`) — "dry-run mode short-circuits compilation ... (no subprocess
is started)"; otherwise the synchronous invocation returns the tool's
verdict. -/
def runCmd (buildN : Bool) (res : Except String Unit) : Except String Unit :=
  if buildN then .ok () else res

/-- Lines 372-380: collect the `.java` source paths from the walk of
`srcDir` (the callback filters on `filepath.Ext` only — it does not skip
directories). -/
def javaSrcFiles (sep : Char) (vs : List Visit) : List String :=
  (vs.filter (fun v => filepathExt sep v.path = ".java")).map (fun v => v.path)

/-- `buildJar(w, srcDir)`: enumerate sources (a literal `*.java` in dry-run),
resolve the boot classpath, build the `javac` argument list, run `javac`
through `runCmd`, then `writeJar` the scratch output directory. -/
def buildJar (sep : Char) (cf : String → Bool) (cfg : Config) (jenv : JarEnv)
    (srcWalk : List Visit) : Except String Archive :=
  let srcFiles := if cfg.buildN then ["*.java"] else javaSrcFiles sep srcWalk
  let dst := joinUnder sep cfg.tmpdir "javac-output"
  match jenv.bootCP with
  | .error e => .error e
  | .ok bClspath =>
    let args := ["-d", dst, "-source", javacTargetVer, "-target", javacTargetVer,
      "-bootclasspath", bClspath]
    let args := if cfg.bindClasspath ≠ "" then
        args ++ ["-classpath", cfg.bindClasspath]
      else args
    let _args := args ++ srcFiles
    match runCmd cfg.buildN jenv.javacRes with
    | .error e => .error e
    | .ok _ => writeJar sep cf cfg jenv.javacOut

/-! ## `buildSrcJar` (lines 189-207) -/

/-- The `-sources.jar` companion name: `buildO` with `filepath.Ext` stripped,
plus `-sources.jar`. -/
def srcJarName (sep : Char) (buildO : String) : String :=
  strDropRight buildO (filepathExt sep buildO).length ++ "-sources.jar"

/-- `buildSrcJar(androidDir)`: outside dry-run it creates the sources
container file; either way it delegates to `writeJar` over the walk of
`androidDir + "/src/main/java"`.  Returns the files created on disk and the
`writeJar` outcome. -/
def buildSrcJar (sep : Char) (cf : String → Bool) (cfg : Config)
    (srcWalk : List Visit) : List String × Except String Archive :=
  let created := if cfg.buildN then [] else [srcJarName sep cfg.buildO]
  (created, writeJar sep cf cfg srcWalk)

/-! ## Asset merging inside `buildAAR` (lines 278-319) -/

/-- The outcome of the asset-merging section: the `files` claim map
(`archive name ↦ owning import path`, newest first), the archive as written
so far, and the error the section returns (`none` = keep going). -/
structure MergeSt where
  files : List (String × String)
  out : Archive
  err : Option String
deriving DecidableEq

/-- The asset walk callback (lines 290-314) folded over one package's visit
sequence: skip directories, build `"assets/" + relative path`, fail on a name
already claimed, record the claim, then create the entry and copy the bytes —
except that a failed create is discarded (`return nil`), skipping the copy
and continuing the walk. -/
def assetWalk (cf : String → Bool) (importPath : String)
    : List Visit → List (String × String) → Archive → MergeSt
  | [], files, out => ⟨files, out, none⟩
  | v :: vs, files, out =>
    match v.err with
    | some e => ⟨files, out, some e⟩
    | none =>
      if v.isDir then assetWalk cf importPath vs files out
      else
        let name := "assets/" ++ v.path
        match lookupStr name files with
        | some orig => ⟨files, out, some (conflictMsg importPath name orig)⟩
        | none =>
          let files := (name, importPath) :: files
          if cf name then assetWalk cf importPath vs files out
          else assetWalk cf importPath vs files (out ++ [(name, v.content)])

/-- Lines 278-319: the per-package loop around `assetWalk`; a package without
an assets directory contributes nothing, and the first error ends the loop. -/
def mergeAssets (cf : String → Bool)
    : List Pkg → List (String × String) → Archive → MergeSt
  | [], files, out => ⟨files, out, none⟩
  | pkg :: rest, files, out =>
    match pkg.assets with
    | none => mergeAssets cf rest files out
    | some walk =>
      match assetWalk cf pkg.importPath walk files out with
      | ⟨files', out', none⟩ => mergeAssets cf rest files' out'
      | st => st

/-! ## The jni section of `buildAAR` (lines 321-346) -/

/-- One requested architecture as `buildAAR` sees it: the toolchain ABI name
and the `ioutil.ReadDir` result over its jniLibs directory, as
(file name, content) pairs. -/
structure Arch where
  abi : String
  jniFiles : Except String (List (String × String))
deriving DecidableEq

/-- Lines 328-345: one architecture's files; each becomes an entry at
`jni/<abi>/<name>`, whose bytes are copied only outside dry-run
(`filepath.Base` of a `ReadDir` name is the name itself). -/
def jniArchLoop (sep : Char) (cf : String → Bool) (buildN : Bool) (abi : String)
    : List (String × String) → Archive → Archive × Option String
  | [], out => (out, none)
  | (fname, content) :: rest, out =>
    let lib := joinUnder sep abi fname
    let entry := joinUnder sep "jni" lib
    if cf entry then (out, some (createErrMsg entry))
    else jniArchLoop sep cf buildN abi rest (out ++ [(entry, if buildN then "" else content)])

/-- Lines 321-346: the per-architecture loop; a failed `ReadDir` or a failed
entry ends it. -/
def jniSection (sep : Char) (cf : String → Bool) (buildN : Bool)
    : List Arch → Archive → Archive × Option String
  | [], out => (out, none)
  | arch :: rest, out =>
    match arch.jniFiles with
    | .error e => (out, some e)
    | .ok files =>
      match jniArchLoop sep cf buildN arch.abi files out with
      | (out', none) => jniSection sep cf buildN rest out'
      | r => r

/-! ## `buildAAR` (lines 227-360) -/

/-- Fallback for `pkgs.headD`; the Go code indexes `pkgs[0]`, so callers pass
a nonempty package list. -/
def pkgDflt : Pkg := ⟨"", "", none⟩

/-- Lines 248-359: everything `buildAAR` streams into the `aarw` ZIP writer
after validation: `AndroidManifest.xml`, `proguard.txt`, `classes.jar` (the
`buildJar` output embedded as one entry), the merged assets, the jni
libraries, `R.txt` and `res/` (both content-free).  Returns the archive as
written when the function returns, and the error if any. -/
def aarEntries (sep : Char) (cf : String → Bool) (cfg : Config) (jenv : JarEnv)
    (pkgs : List Pkg) (archs : List Arch) (androidSrcWalk : List Visit)
    : Archive × Option String :=
  if cf "AndroidManifest.xml" then ([], some (createErrMsg "AndroidManifest.xml"))
  else
  let out : Archive :=
    [("AndroidManifest.xml", manifestXmlContent (pkgs.headD pkgDflt).name)]
  if cf "proguard.txt" then (out, some (createErrMsg "proguard.txt"))
  else
  let out := out ++ [("proguard.txt", proguardContent)]
  if cf "classes.jar" then (out, some (createErrMsg "classes.jar"))
  else
  match buildJar sep cf cfg jenv androidSrcWalk with
  | .error e => (out, some e)
  | .ok jar =>
    let out := out ++ [("classes.jar", encodeJar jar)]
    match mergeAssets cf pkgs [] out with
    | ⟨_, out, some e⟩ => (out, some e)
    | ⟨_, out, none⟩ =>
      match jniSection sep cf cfg.buildN archs out with
      | (out, some e) => (out, some e)
      | (out, none) =>
        if cf "R.txt" then (out, some (createErrMsg "R.txt"))
        else
        let out := out ++ [("R.txt", "")]
        if cf "res/" then (out, some (createErrMsg "res/"))
        else (out ++ [("res/", "")], none)

/-- Lines 232-246 wrapped around `aarEntries`: the suffix validation (before
any file is created) and the `os.Create` of the output file outside dry-run.
Returns (files created on disk, archive written, error). -/
def buildAARBody (sep : Char) (cf : String → Bool) (cfg : Config) (jenv : JarEnv)
    (pkgs : List Pkg) (archs : List Arch) (androidSrcWalk : List Visit)
    : List String × Archive × Option String :=
  if !strEndsWith cfg.buildO ".aar" then ([], [], some (aarErrMsg cfg.buildO))
  else
    let created := if cfg.buildN then [] else [cfg.buildO]
    match aarEntries sep cf cfg jenv pkgs archs androidSrcWalk with
    | (out, err) => (created, out, err)

/-- The full result of a `buildAAR` call, including the configuration record
it leaves behind (line 230 assigns the global `buildO`). -/
structure AARResult where
  cfg : Config
  created : List String
  out : Archive
  err : Option String
deriving DecidableEq

/-- `buildAAR(androidDir, pkgs, androidArchs)`: default `buildO` to
`pkgs[0].Name + ".aar"` when unset, then validate and assemble. -/
def buildAAR (sep : Char) (cf : String → Bool) (cfg : Config) (jenv : JarEnv)
    (pkgs : List Pkg) (archs : List Arch) (androidSrcWalk : List Visit)
    : AARResult :=
  let cfg := if cfg.buildO = "" then
      { cfg with buildO := (pkgs.headD pkgDflt).name ++ ".aar" }
    else cfg
  match buildAARBody sep cf cfg jenv pkgs archs androidSrcWalk with
  | (created, out, err) => ⟨cfg, created, out, err⟩

/-! ## `androidAPIPath` (lines 468-506) -/

/-- One entry of the `Readdir` listing of the SDK `platforms` directory:
its name, the `IsDir` bit, and whether `os.Stat` finds `android.jar`
inside it. -/
structure DirEntry where
  name : String
  isDir : Bool
  hasAndroidJar : Bool
deriving DecidableEq

/-- How far opening and listing the platforms directory got. -/
inductive PlatformsOpen where
  | openFail (msg : String)
  | readFail (msg : String)
  | entries (fis : List DirEntry)
deriving DecidableEq

/-- Lines 485-500: the selection loop over the directory listing, carried out
on the `(apiPath, apiVer)` accumulator. -/
def selectPlatform (sep : Char) (sdkDirName : String)
    : List DirEntry → String → Int → String × Int
  | [], apiPath, apiVer => (apiPath, apiVer)
  | fi :: rest, apiPath, apiVer =>
    if !(fi.isDir && strStartsWith fi.name "android-") then
      selectPlatform sep sdkDirName rest apiPath apiVer
    else
      match goAtoi (strDrop fi.name 8) with
      | none => selectPlatform sep sdkDirName rest apiPath apiVer
      | some n =>
        if n < minAndroidAPI then selectPlatform sep sdkDirName rest apiPath apiVer
        else if fi.hasAndroidJar && apiVer < n then
          selectPlatform sep sdkDirName rest (joinUnder sep sdkDirName fi.name) n
        else selectPlatform sep sdkDirName rest apiPath apiVer

/-- `androidAPIPath()`: fail when `ANDROID_HOME` is unset, when the platforms
directory cannot be opened or listed, or when no platform qualifies; else the
qualifying platform directory of highest version. -/
def androidAPIPath (sep : Char) (sdk : String) (plat : PlatformsOpen)
    : Except String String :=
  if sdk = "" then .error "ANDROID_HOME environment var is not set"
  else
    match plat with
    | .openFail msg => .error ("failed to find android SDK platform: " ++ msg)
    | .readFail msg =>
        .error ("failed to find android SDK platform (min API level: "
          ++ toString minAndroidAPI ++ "): " ++ msg)
    | .entries fis =>
      match selectPlatform sep (joinUnder sep sdk "platforms") fis "" 0 with
      | (apiPath, apiVer) =>
        if apiVer = 0 then
          .error ("failed to find android SDK platform (min API level: "
            ++ toString minAndroidAPI ++ ") in " ++ joinUnder sep sdk "platforms")
        else .ok apiPath

/-- Specification-side reading of lines 486-499: the version under which an
entry qualifies — a directory named `android-<integer ≥ minAndroidAPI>`
containing `android.jar`. -/
def entryQualVer (fi : DirEntry) : Option Int :=
  if fi.isDir && strStartsWith fi.name "android-" then
    match goAtoi (strDrop fi.name 8) with
    | some n => if minAndroidAPI ≤ n && fi.hasAndroidJar then some n else none
    | none => none
  else none

/-- The highest qualifying version of a listing (`0` when none qualifies). -/
def maxQualVer : List DirEntry → Int
  | [] => 0
  | fi :: rest =>
    match entryQualVer fi with
    | some n => max n (maxQualVer rest)
    | none => maxQualVer rest

/-! ## The native-library copy stage of `goAndroidBind` -/

/-- `bind.NativeMeta` (package `bind`, `src/unnamed/part_000`). -/
structure NativeMeta where
  Libs : List String
deriving DecidableEq

/-- Lines 39-41: the auxiliary-library names, `strings.Split(nativeLibs, ",")`. -/
def nativeMetaOf (nativeLibs : String) : NativeMeta := ⟨goSplit nativeLibs ','⟩

/-- Lines 131-147: for one architecture, copy each `lib<name>.so` from the
prebuilt library directory `dir` (listed as (file name, content) pairs) into
the jniLibs slot; `os.Open` of a missing source file fails the bind. -/
def copyNativeLibs (sep : Char) (dir : String) (dirFiles : List (String × String))
    : List String → Except String (List (String × String))
  | [] => .ok []
  | lib :: rest =>
    let libPath := "lib" ++ lib ++ ".so"
    match lookupStr libPath dirFiles with
    | none =>
        .error ("open " ++ joinUnder sep dir libPath ++ ": no such file or directory")
    | some content =>
      match copyNativeLibs sep dir dirFiles rest with
      | .error e => .error e
      | .ok copied => .ok ((libPath, content) :: copied)

/-- Entry creation never fails (a healthy destination writer). -/
def noFail : String → Bool := fun _ => false

/-! ## Specification-side asset bookkeeping (for the merge claims) -/

/-- The archive-relative names one walk contributes: `assets/<relative path>`
for each regular file. -/
def walkAssetNames (vs : List Visit) : List String :=
  (walkFiles vs).map (fun e => "assets/" ++ e.1)

/-- The archive-relative asset names one package contributes. -/
def pkgAssetNames (pkg : Pkg) : List String :=
  match pkg.assets with
  | none => []
  | some vs => walkAssetNames vs

/-- The number of regular asset files one package contributes. -/
def pkgFileCount (pkg : Pkg) : Nat :=
  match pkg.assets with
  | none => 0
  | some vs => walkFileCount vs

/-- A package whose asset walk (if any) reports no walk error. -/
def pkgClean (pkg : Pkg) : Bool :=
  match pkg.assets with
  | none => true
  | some vs => cleanWalk vs

/-! ## Concrete fixtures used by counterexamples and witnesses -/

/-- Entry creation fails exactly for the asset entry `assets/icon.png`. -/
def failOnIcon : String → Bool := fun n => n == "assets/icon.png"

/-- A standard non-dry-run configuration with a valid output name. -/
def cfgStd : Config := ⟨"hello.aar", false, false, false, "", "/tmp"⟩

/-- A dry-run configuration with a valid output name. -/
def cfgDry : Config := ⟨"hello.aar", true, false, false, "", "/tmp"⟩

/-- A configuration with the output path unset. -/
def cfgUnset : Config := ⟨"", false, false, false, "", "/tmp"⟩

/-- A healthy environment for `buildJar`: classpath resolves, `javac`
succeeds, and its scratch directory walk is just the root. -/
def jenvOK : JarEnv := ⟨.ok "bcp", .ok (), [vdir ""]⟩

/-- A package `hello` with a single asset `icon.png`. -/
def pkgHello : Pkg := ⟨"hello", "example.com/hello", some [vdir "", vfile "icon.png" "PNG"]⟩

/-- A package `a` owning asset `a.txt`. -/
def pkgA : Pkg := ⟨"a", "example.com/a", some [vdir "", vfile "a.txt" "AAA"]⟩

/-- A package `b` owning a conflicting asset `a.txt`. -/
def pkgB : Pkg := ⟨"b", "example.com/b", some [vdir "", vfile "a.txt" "BBB"]⟩

/-- A package `vids` with two assets, disjoint from `pkgHello`. -/
def pkgVids : Pkg :=
  ⟨"vids", "example.com/vids", some [vdir "", vfile "v1.mp4" "V1", vfile "v2.mp4" "V2"]⟩

/-- A qualifying platform directory of version 14. -/
def e14 : DirEntry := ⟨"android-14", true, true⟩

/-- A qualifying platform directory of version 19. -/
def e19 : DirEntry := ⟨"android-19", true, true⟩

/-- A qualifying platform directory of version 21. -/
def e21 : DirEntry := ⟨"android-21", true, true⟩

/-! ## General lemmas -/

theorem lookupStr_eq_none (n : String) (l : List (String × String)) :
    lookupStr n l = none ↔ n ∉ l.map Prod.fst := by
  induction l with
  | nil => simp [lookupStr]
  | cons kv l ih =>
    rcases kv with ⟨k, v⟩
    by_cases h : k = n
    · subst h
      simp [lookupStr]
    · simp [lookupStr, h, ih, Ne.symm h]

theorem listHasPfx_append (p s t : List Char) (h : listHasPfx p s = true) :
    listHasPfx p (s ++ t) = true := by
  induction p generalizing s with
  | nil => simp [listHasPfx]
  | cons c cs ih =>
    cases s with
    | nil => simp [listHasPfx] at h
    | cons d ds =>
      simp only [listHasPfx, Bool.and_eq_true] at h
      simp only [List.cons_append, listHasPfx, Bool.and_eq_true]
      exact ⟨h.1, ih ds h.2⟩

theorem listContains_nil_pat (l : List Char) : listContains [] l = true := by
  induction l with
  | nil => simp [listContains, listHasPfx]
  | cons c cs ih => simp [listContains, listHasPfx, ih]

theorem listContains_append_left (pat s t : List Char)
    (h : listContains pat s = true) : listContains pat (s ++ t) = true := by
  induction s with
  | nil =>
    simp only [listContains] at h
    have : pat = [] := by
      cases pat with
      | nil => rfl
      | cons p ps => simp [listHasPfx] at h
    subst this
    simpa using listContains_nil_pat t
  | cons c cs ih =>
    simp only [listContains, Bool.or_eq_true] at h
    rcases h with h | h
    · simp only [List.cons_append, listContains, Bool.or_eq_true]
      exact Or.inl (by simpa using listHasPfx_append pat (c :: cs) t h)
    · simp only [List.cons_append, listContains, Bool.or_eq_true]
      exact Or.inr (ih h)

theorem string_data_append (s t : String) : (s ++ t).data = s.data ++ t.data := by
  cases s; cases t; rfl

theorem strContains_append_left (s t pat : String) (h : strContains s pat = true) :
    strContains (s ++ t) pat = true := by
  unfold strContains at h ⊢
  rw [string_data_append]
  exact listContains_append_left pat.data s.data t.data h

/-! ## C8: `writeJar` writes the manifest first, one entry per regular file -/

theorem writeJarWalk_ok (sep : Char) (cf : String → Bool) (hcf : ∀ n, cf n = false)
    (vs : List Visit) :
    ∀ out : Archive, cleanWalk vs = true →
      writeJarWalk sep cf vs out
        = (out ++ (walkFiles vs).map (fun e => (toSlash sep e.1, e.2)), none) := by
  induction vs with
  | nil => intro out _; simp [writeJarWalk, walkFiles]
  | cons v vs ih =>
    intro out h
    have hall : v.err = none ∧ cleanWalk vs = true := by
      simpa [cleanWalk, List.all_cons] using h
    cases hD : v.isDir with
    | true =>
      simp only [writeJarWalk, hall.1, hD, if_pos]
      rw [ih out hall.2]
      simp [walkFiles, hD]
    | false =>
      simp only [writeJarWalk, hall.1, hD, hcf (toSlash sep v.path)]
      rw [ih (out ++ [(toSlash sep v.path, v.content)]) hall.2]
      simp [walkFiles, hD, List.append_assoc]

/-- C8: outside dry-run mode and with a healthy destination, `writeJar`
writes the fixed manifest entry `META-INF/MANIFEST.MF` (with the fixed header
content) as the first entry, then exactly one entry per regular file of the
walk — named by the file's root-relative path normalized to forward slashes —
and no entries for directory visits. -/
theorem writeJar_manifest_and_per_file_entries (sep : Char) (cf : String → Bool)
    (cfg : Config) (vs : List Visit) (hN : cfg.buildN = false)
    (hvs : cleanWalk vs = true) (hcf : ∀ n, cf n = false) :
    writeJar sep cf cfg vs
      = .ok (("META-INF/MANIFEST.MF", manifestHeader)
          :: (walkFiles vs).map (fun e => (toSlash sep e.1, e.2)))
    ∧ ((walkFiles vs).map (fun e => (toSlash sep e.1, e.2))).length = walkFileCount vs := by
  constructor
  · unfold writeJar
    rw [hN, hcf "META-INF/MANIFEST.MF"]
    rw [writeJarWalk_ok sep cf hcf vs [("META-INF/MANIFEST.MF", manifestHeader)] hvs]
    simp
  · simp [walkFileCount, walkFiles]

/-- C8 witness: a concrete two-file tree. -/
theorem writeJar_manifest_and_per_file_entries_witness :
    writeJar '/' noFail cfgStd [vdir "", vfile "A.java" "x", vdir "sub", vfile "sub/B.java" "y"]
      = .ok [("META-INF/MANIFEST.MF", manifestHeader), ("A.java", "x"), ("sub/B.java", "y")]
    ∧ (((walkFiles [vdir "", vfile "A.java" "x", vdir "sub", vfile "sub/B.java" "y"]).map
        (fun e => (toSlash '/' e.1, e.2))).length
      = walkFileCount [vdir "", vfile "A.java" "x", vdir "sub", vfile "sub/B.java" "y"]) := by
  have h := writeJar_manifest_and_per_file_entries '/' noFail cfgStd
    [vdir "", vfile "A.java" "x", vdir "sub", vfile "sub/B.java" "y"]
    (by decide) (by decide) (fun n => rfl)
  exact ⟨by rw [h.1]; decide, h.2⟩

/-- C8 counterexample: in dry-run mode `writeJar` writes nothing at all — in
particular no manifest entry and no per-file entry for `A.java` — so the
claim does not hold of every invocation as stated. -/
theorem writeJar_dry_run_no_entries_cex :
    writeJar '/' noFail cfgDry [vdir "", vfile "A.java" "code"] = .ok [] := by decide

/-! ## `buildAAR` projection lemmas -/

theorem buildAAR_eq_body (sep : Char) (cf : String → Bool) (cfg : Config)
    (jenv : JarEnv) (pkgs : List Pkg) (archs : List Arch) (srcWalk : List Visit) :
    buildAAR sep cf cfg jenv pkgs archs srcWalk
      = ⟨if cfg.buildO = "" then { cfg with buildO := (pkgs.headD pkgDflt).name ++ ".aar" } else cfg,
         (buildAARBody sep cf
           (if cfg.buildO = "" then { cfg with buildO := (pkgs.headD pkgDflt).name ++ ".aar" } else cfg)
           jenv pkgs archs srcWalk).1,
         (buildAARBody sep cf
           (if cfg.buildO = "" then { cfg with buildO := (pkgs.headD pkgDflt).name ++ ".aar" } else cfg)
           jenv pkgs archs srcWalk).2.1,
         (buildAARBody sep cf
           (if cfg.buildO = "" then { cfg with buildO := (pkgs.headD pkgDflt).name ++ ".aar" } else cfg)
           jenv pkgs archs srcWalk).2.2⟩ := by
  simp only [buildAAR]

theorem buildAARBody_created_dry (sep : Char) (cf : String → Bool) (cfg : Config)
    (jenv : JarEnv) (pkgs : List Pkg) (archs : List Arch) (srcWalk : List Visit)
    (hN : cfg.buildN = true) :
    (buildAARBody sep cf cfg jenv pkgs archs srcWalk).1 = [] := by
  unfold buildAARBody
  rcases haar : aarEntries sep cf cfg jenv pkgs archs srcWalk with ⟨o, er⟩
  cases hs : strEndsWith cfg.buildO ".aar" <;> simp [hs, hN, haar]

/-! ## C7: output-name validation before any writing; default output name -/

/-- C7: when the configured output name is nonempty and does not end in
`.aar`, `buildAAR` fails with the validation error having created no file and
written no archive entry; when the output name is unset, it is defaulted to
`<first package name>.aar`. -/
theorem buildAAR_output_validation (sep : Char) (cf : String → Bool) (cfg : Config)
    (jenv : JarEnv) (pkgs : List Pkg) (archs : List Arch) (srcWalk : List Visit) :
    (cfg.buildO ≠ "" → strEndsWith cfg.buildO ".aar" = false →
      buildAAR sep cf cfg jenv pkgs archs srcWalk
        = ⟨cfg, [], [], some (aarErrMsg cfg.buildO)⟩)
    ∧ (cfg.buildO = "" →
      (buildAAR sep cf cfg jenv pkgs archs srcWalk).cfg.buildO
        = (pkgs.headD pkgDflt).name ++ ".aar") := by
  constructor
  · intro h0 hsuf
    rw [buildAAR_eq_body]
    simp only [h0, if_neg]
    unfold buildAARBody
    simp [hsuf]
  · intro h0
    rw [buildAAR_eq_body]
    simp [h0]

/-- C7 witness: `lib.zip` is rejected with nothing created; an unset output
name defaults to `hello.aar`. -/
theorem buildAAR_output_validation_witness :
    buildAAR '/' noFail ⟨"lib.zip", false, false, false, "", "/tmp"⟩ jenvOK [pkgHello] [] []
      = ⟨⟨"lib.zip", false, false, false, "", "/tmp"⟩, [], [], some (aarErrMsg "lib.zip")⟩
    ∧ (buildAAR '/' noFail cfgUnset jenvOK [pkgHello] [] []).cfg.buildO = "hello.aar" := by
  constructor
  · exact (buildAAR_output_validation '/' noFail ⟨"lib.zip", false, false, false, "", "/tmp"⟩
      jenvOK [pkgHello] [] []).1 (by decide) (by decide)
  · exact (buildAAR_output_validation '/' noFail cfgUnset jenvOK [pkgHello] [] []).2 rfl

/-! ## C6: configuration mutation by `buildAAR` -/

/-- C6 counterexample: with the output path unset before the call,
`buildAAR` (line 230) assigns the process-wide `buildO`, so the
configuration observed after the call differs from the one before it. -/
theorem buildAAR_mutates_buildO_cex :
    cfgUnset.buildO = ""
    ∧ (buildAAR '/' noFail cfgUnset jenvOK [pkgHello] [] []).cfg.buildO = "hello.aar" := by
  decide

/-- C6 amended: `buildAAR` never mutates the dry-run or verbose flags, and it
mutates the output path exactly when that path was unset, setting it to the
default `<first package name>.aar`. -/
theorem buildAAR_preserves_flags_and_set_output (sep : Char) (cf : String → Bool)
    (cfg : Config) (jenv : JarEnv) (pkgs : List Pkg) (archs : List Arch)
    (srcWalk : List Visit) :
    (buildAAR sep cf cfg jenv pkgs archs srcWalk).cfg.buildN = cfg.buildN
    ∧ (buildAAR sep cf cfg jenv pkgs archs srcWalk).cfg.buildV = cfg.buildV
    ∧ (cfg.buildO ≠ "" → (buildAAR sep cf cfg jenv pkgs archs srcWalk).cfg = cfg)
    ∧ (cfg.buildO = "" → (buildAAR sep cf cfg jenv pkgs archs srcWalk).cfg
        = { cfg with buildO := (pkgs.headD pkgDflt).name ++ ".aar" }) := by
  rw [buildAAR_eq_body]
  by_cases h0 : cfg.buildO = "" <;> simp [h0]

/-- C6 amended witness: with a set output path the configuration is returned
unchanged, and flags are never touched. -/
theorem buildAAR_preserves_flags_and_set_output_witness :
    (buildAAR '/' noFail cfgStd jenvOK [pkgHello] [] []).cfg.buildN = cfgStd.buildN
    ∧ (buildAAR '/' noFail cfgStd jenvOK [pkgHello] [] []).cfg.buildV = cfgStd.buildV
    ∧ (buildAAR '/' noFail cfgStd jenvOK [pkgHello] [] []).cfg = cfgStd := by
  have h := buildAAR_preserves_flags_and_set_output '/' noFail cfgStd jenvOK [pkgHello] [] []
  exact ⟨h.1, h.2.1, h.2.2.1 (by decide)⟩

/-! ## C1: the asset-entry create error is discarded -/

/-- C1: when creating the archive entry `assets/icon.png` fails, `buildAAR`
still returns success (lines 308-311 discard the error with `return nil`) and
the asset's bytes are simply absent from the archive — while the same call
with a healthy writer does copy them.  The error is not returned to the
caller, contradicting the propagation policy. -/
theorem buildAAR_swallows_asset_create_error :
    (buildAAR '/' failOnIcon cfgStd jenvOK [pkgHello] [] []).err = none
    ∧ lookupStr "assets/icon.png"
        (buildAAR '/' failOnIcon cfgStd jenvOK [pkgHello] [] []).out = none
    ∧ lookupStr "assets/icon.png"
        (buildAAR '/' noFail cfgStd jenvOK [pkgHello] [] []).out = some "PNG" := by
  decide

/-! ## C2: conflict detection is interleaved with copying -/

/-- C2 counterexample: merging `pkgA` then `pkgB`, the conflict on
`assets/a.txt` is detected only in the second package, and at that point the
first package's asset bytes `"AAA"` are already written into the archive —
copying is not deferred until after conflict detection completes. -/
theorem conflict_leaves_earlier_asset_bytes_cex :
    (buildAAR '/' noFail cfgStd jenvOK [pkgA, pkgB] [] []).err
      = some (conflictMsg "example.com/b" "assets/a.txt" "example.com/a")
    ∧ lookupStr "assets/a.txt"
        (buildAAR '/' noFail cfgStd jenvOK [pkgA, pkgB] [] []).out = some "AAA" := by
  decide

/-! ## C9: dry-run writes nothing but still validates -/

/-- C9: with the dry-run flag set, `buildAAR` and `buildSrcJar` create no
file on the filesystem and the sources container gets no bytes, yet
`buildJar` still resolves the boot classpath (a resolution error is returned
even in dry-run) and `buildAAR` still rejects an output name lacking the
`.aar` suffix. -/
theorem dry_run_validates_without_writing (sep : Char) (cf : String → Bool)
    (cfg : Config) (jenv : JarEnv) (pkgs : List Pkg) (archs : List Arch)
    (srcWalk : List Visit) (e : String) (jr : Except String Unit) (jo : List Visit)
    (hN : cfg.buildN = true) :
    (buildAAR sep cf cfg jenv pkgs archs srcWalk).created = []
    ∧ (buildSrcJar sep cf cfg srcWalk).1 = []
    ∧ (buildSrcJar sep cf cfg srcWalk).2 = .ok []
    ∧ buildJar sep cf cfg ⟨.error e, jr, jo⟩ srcWalk = .error e
    ∧ (strEndsWith cfg.buildO ".aar" = false → cfg.buildO ≠ "" →
        (buildAAR sep cf cfg jenv pkgs archs srcWalk).err = some (aarErrMsg cfg.buildO)) := by
  refine ⟨?_, ?_, ?_, ?_, ?_⟩
  · rw [buildAAR_eq_body]
    exact buildAARBody_created_dry sep cf _ jenv pkgs archs srcWalk
      (by by_cases h0 : cfg.buildO = "" <;> simp [h0, hN])
  · simp [buildSrcJar, hN]
  · simp [buildSrcJar, writeJar, hN]
  · rfl
  · intro hsuf h0
    rw [buildAAR_eq_body]
    simp only [h0, if_neg]
    unfold buildAARBody
    simp [hsuf]

/-- C9 witness: a concrete dry run with an unresolvable boot classpath and a
concrete dry run with a bad output suffix. -/
theorem dry_run_validates_without_writing_witness :
    (buildAAR '/' noFail cfgDry jenvOK [pkgHello] [] []).created = []
    ∧ (buildSrcJar '/' noFail cfgDry []).1 = []
    ∧ (buildSrcJar '/' noFail cfgDry []).2 = .ok []
    ∧ buildJar '/' noFail cfgDry ⟨.error "no SDK", .ok (), []⟩ [] = .error "no SDK"
    ∧ (buildAAR '/' noFail ⟨"lib.zip", true, false, false, "", "/tmp"⟩ jenvOK
        [pkgHello] [] []).err = some (aarErrMsg "lib.zip") := by
  have h1 := dry_run_validates_without_writing '/' noFail cfgDry jenvOK [pkgHello] [] []
    "no SDK" (.ok ()) [] rfl
  have h2 := dry_run_validates_without_writing '/' noFail
    ⟨"lib.zip", true, false, false, "", "/tmp"⟩ jenvOK [pkgHello] [] []
    "no SDK" (.ok ()) [] rfl
  exact ⟨h1.1, h1.2.1, h1.2.2.1, h1.2.2.2.1, h2.2.2.2.2 (by decide) (by decide)⟩

/-! ## C10: an empty auxiliary-library configuration demands `lib.so` -/

/-- C10: `strings.Split` of the empty `nativeLibs` configuration yields one
empty name, so for an architecture whose prebuilt library directory lacks a
file called exactly `lib.so`, the copy stage of `goAndroidBind` fails with
the open error for that file — an empty configuration is not "no auxiliary
libraries". -/
theorem empty_nativeLibs_requires_lib_so (sep : Char) (dir : String)
    (dirFiles : List (String × String))
    (h : lookupStr "lib.so" dirFiles = none) :
    (nativeMetaOf "").Libs = [""]
    ∧ copyNativeLibs sep dir dirFiles (nativeMetaOf "").Libs
        = .error ("open " ++ joinUnder sep dir "lib.so" ++ ": no such file or directory") := by
  refine ⟨by decide, ?_⟩
  show copyNativeLibs sep dir dirFiles [""] = _
  have hname : ("lib" ++ "" ++ ".so" : String) = "lib.so" := rfl
  unfold copyNativeLibs
  rw [hname]
  simp [h]

/-- C10 witness: an empty prebuilt directory. -/
theorem empty_nativeLibs_requires_lib_so_witness :
    (nativeMetaOf "").Libs = [""]
    ∧ copyNativeLibs '/' "armlibs" [] (nativeMetaOf "").Libs
        = .error ("open " ++ joinUnder '/' "armlibs" "lib.so" ++ ": no such file or directory") :=
  empty_nativeLibs_requires_lib_so '/' "armlibs" [] rfl

/-! ## Merge invariants (C2 amended, C5) -/

theorem assetWalk_inv (cf : String → Bool) (hcf : ∀ n, cf n = false) (ip : String)
    (vs : List Visit) :
    ∀ (files : List (String × String)) (out : Archive),
      out.map Prod.fst = (files.map Prod.fst).reverse →
      (files.map Prod.fst).Nodup →
      ((assetWalk cf ip vs files out).out.map Prod.fst
          = ((assetWalk cf ip vs files out).files.map Prod.fst).reverse)
      ∧ ((assetWalk cf ip vs files out).files.map Prod.fst).Nodup := by
  induction vs with
  | nil => intro files out h1 h2; exact ⟨by simpa [assetWalk] using h1, by simpa [assetWalk] using h2⟩
  | cons v vs ih =>
    intro files out h1 h2
    cases hverr : v.err with
    | some e =>
      refine ⟨by simpa [assetWalk, hverr] using h1, by simpa [assetWalk, hverr] using h2⟩
    | none =>
      cases hD : v.isDir with
      | true => simpa [assetWalk, hverr, hD] using ih files out h1 h2
      | false =>
        cases hl : lookupStr ("assets/" ++ v.path) files with
        | some orig =>
          refine ⟨by simpa [assetWalk, hverr, hD, hl] using h1,
            by simpa [assetWalk, hverr, hD, hl] using h2⟩
        | none =>
          have hfresh : ("assets/" ++ v.path) ∉ files.map Prod.fst :=
            (lookupStr_eq_none _ _).1 hl
          have step := ih (("assets/" ++ v.path, ip) :: files)
            (out ++ [("assets/" ++ v.path, v.content)])
            (by simp [h1]) (by simp [List.nodup_cons, hfresh, h2])
          simpa [assetWalk, hverr, hD, hl, hcf ("assets/" ++ v.path)] using step

theorem mergeAssets_inv (cf : String → Bool) (hcf : ∀ n, cf n = false)
    (pkgs : List Pkg) :
    ∀ (files : List (String × String)) (out : Archive),
      out.map Prod.fst = (files.map Prod.fst).reverse →
      (files.map Prod.fst).Nodup →
      ((mergeAssets cf pkgs files out).out.map Prod.fst
          = ((mergeAssets cf pkgs files out).files.map Prod.fst).reverse)
      ∧ ((mergeAssets cf pkgs files out).files.map Prod.fst).Nodup := by
  induction pkgs with
  | nil => intro files out h1 h2; exact ⟨by simpa [mergeAssets] using h1, by simpa [mergeAssets] using h2⟩
  | cons pkg rest ih =>
    intro files out h1 h2
    cases hpa : pkg.assets with
    | none => simpa [mergeAssets, hpa] using ih files out h1 h2
    | some walk =>
      have hw := assetWalk_inv cf hcf pkg.importPath walk files out h1 h2
      rcases hst : assetWalk cf pkg.importPath walk files out with ⟨f', o', e'⟩
      rw [hst] at hw
      cases e' with
      | none =>
        simpa [mergeAssets, hpa, hst] using ih f' o' hw.1 hw.2
      | some err =>
        refine ⟨by simpa [mergeAssets, hpa, hst] using hw.1,
          by simpa [mergeAssets, hpa, hst] using hw.2⟩

/-- C2 amended: asset copying is interleaved with conflict detection — each
file's bytes are written right after its name is checked (the counterexample
shows bytes of earlier packages already written when a later package
conflicts) — but the conflict check still guarantees that the merge writes at
most one entry per archive-relative name: the written names are exactly the
claimed names, each exactly once, and a detected conflict stops the merge
without writing the conflicting file's bytes. -/
theorem mergeAssets_writes_each_name_once (pkgs : List Pkg) :
    ((mergeAssets noFail pkgs [] []).out.map Prod.fst).Nodup
    ∧ (mergeAssets noFail pkgs [] []).out.map Prod.fst
        = ((mergeAssets noFail pkgs [] []).files.map Prod.fst).reverse := by
  have h := mergeAssets_inv noFail (fun n => rfl) pkgs [] [] (by simp) (by simp)
  exact ⟨by rw [h.1]; exact List.nodup_reverse.2 h.2, h.1⟩

/-! ## Success path of the merge (C5) -/

theorem pkgAssetNames_length (pkg : Pkg) :
    (pkgAssetNames pkg).length = pkgFileCount pkg := by
  cases h : pkg.assets with
  | none => simp [pkgAssetNames, pkgFileCount, h]
  | some vs => simp [pkgAssetNames, pkgFileCount, h, walkAssetNames, walkFileCount, walkFiles]

theorem sum_pkgAssetNames_length (pkgs : List Pkg) :
    ((pkgs.map pkgAssetNames).map List.length).sum = (pkgs.map pkgFileCount).sum := by
  induction pkgs with
  | nil => simp
  | cons p ps ih => simp only [List.map_cons, List.sum_cons, pkgAssetNames_length, ih]

theorem assetWalk_ok (ip : String) (vs : List Visit) :
    ∀ (files : List (String × String)) (out : Archive),
      cleanWalk vs = true →
      (walkAssetNames vs).Nodup →
      (∀ n ∈ walkAssetNames vs, lookupStr n files = none) →
      (assetWalk noFail ip vs files out).err = none
      ∧ (assetWalk noFail ip vs files out).files.map Prod.fst
          = (walkAssetNames vs).reverse ++ files.map Prod.fst := by
  induction vs with
  | nil =>
    intro files out _ _ _
    simp [assetWalk, walkAssetNames, walkFiles]
  | cons v vs ih =>
    intro files out hcl hnd hfr
    have hcl' : v.err = none ∧ cleanWalk vs = true := by
      simpa [cleanWalk, List.all_cons] using hcl
    cases hD : v.isDir with
    | true =>
      have hws : walkAssetNames (v :: vs) = walkAssetNames vs := by
        simp [walkAssetNames, walkFiles, hD]
      rw [hws] at hnd hfr
      simpa [assetWalk, hcl'.1, hD, hws] using ih files out hcl'.2 hnd hfr
    | false =>
      have hws : walkAssetNames (v :: vs) = ("assets/" ++ v.path) :: walkAssetNames vs := by
        simp [walkAssetNames, walkFiles, hD]
      rw [hws] at hnd hfr
      have hl : lookupStr ("assets/" ++ v.path) files = none := hfr _ (by simp)
      have hnotin : ("assets/" ++ v.path) ∉ walkAssetNames vs := (List.nodup_cons.1 hnd).1
      have hfresh : ∀ n ∈ walkAssetNames vs,
          lookupStr n (("assets/" ++ v.path, ip) :: files) = none := by
        intro n hn
        have hne : ("assets/" ++ v.path) ≠ n := fun q => hnotin (q ▸ hn)
        simp [lookupStr, hne, hfr n (List.mem_cons_of_mem _ hn)]
      have step := ih (("assets/" ++ v.path, ip) :: files)
        (out ++ [("assets/" ++ v.path, v.content)]) hcl'.2 (List.nodup_cons.1 hnd).2 hfresh
      refine ⟨by simpa [assetWalk, hcl'.1, hD, hl] using step.1, ?_⟩
      have := step.2
      simp only [assetWalk, hcl'.1, hD, hl]
      simp only [noFail, Bool.false_eq_true, if_false]
      rw [this]
      simp [hws, List.append_assoc]

theorem mergeAssets_ok (pkgs : List Pkg) :
    ∀ (files : List (String × String)) (out : Archive),
      pkgs.all pkgClean = true →
      ((pkgs.map pkgAssetNames).join).Nodup →
      (∀ n ∈ (pkgs.map pkgAssetNames).join, lookupStr n files = none) →
      (mergeAssets noFail pkgs files out).err = none
      ∧ (mergeAssets noFail pkgs files out).files.map Prod.fst
          = ((pkgs.map pkgAssetNames).join).reverse ++ files.map Prod.fst := by
  induction pkgs with
  | nil => intro files out _ _ _; simp [mergeAssets]
  | cons pkg rest ih =>
    intro files out hcln hnd hfr
    have hcln' : pkgClean pkg = true ∧ rest.all pkgClean = true := by
      simpa [List.all_cons] using hcln
    have hjoin : ((pkg :: rest).map pkgAssetNames).join
        = pkgAssetNames pkg ++ (rest.map pkgAssetNames).join := by simp
    rw [hjoin] at hnd hfr
    rcases List.nodup_append.1 hnd with ⟨hnd1, hnd2, hdisj⟩
    cases hpa : pkg.assets with
    | none =>
      have hnames : pkgAssetNames pkg = [] := by simp [pkgAssetNames, hpa]
      have hfr' : ∀ n ∈ (rest.map pkgAssetNames).join, lookupStr n files = none := by
        intro n hn
        exact hfr n (List.mem_append_right _ hn)
      simpa [mergeAssets, hpa, hjoin, hnames] using ih files out hcln'.2 hnd2 hfr'
    | some walk =>
      have hclw : cleanWalk walk = true := by simpa [pkgClean, hpa] using hcln'.1
      have hnames : pkgAssetNames pkg = walkAssetNames walk := by simp [pkgAssetNames, hpa]
      have hw := assetWalk_ok pkg.importPath walk files out hclw (hnames ▸ hnd1)
        (fun n hn => hfr n (List.mem_append_left _ (hnames ▸ hn)))
      rcases hst : assetWalk noFail pkg.importPath walk files out with ⟨f', o', e'⟩
      rw [hst] at hw
      have he' : e' = none := hw.1
      subst he'
      have hfr' : ∀ n ∈ (rest.map pkgAssetNames).join, lookupStr n f' = none := by
        intro n hn
        rw [lookupStr_eq_none]
        rw [hw.2]
        intro hmem
        rcases List.mem_append.1 hmem with hmem | hmem
        · exact hdisj (hnames ▸ List.mem_reverse.1 hmem) hn
        · exact (lookupStr_eq_none n files).1 (hfr n (List.mem_append_right _ hn)) hmem
      have := ih f' o' hcln'.2 hnd2 hfr'
      refine ⟨by simpa [mergeAssets, hpa, hst] using this.1, ?_⟩
      have h2 := this.2
      rw [hw.2] at h2
      simp only [mergeAssets, hpa, hst]
      rw [h2]
      simp [hnames, List.reverse_append, List.append_assoc]

/-- C5: a conflicting archive-relative asset name makes the merge fail
immediately — the error names the new package's import path, the original
owner's import path and the offending path, and no later package is
processed — while packages with pairwise-disjoint asset names merge without
error into a claim map with exactly one entry per regular asset file
(cardinality the sum of the per-package file counts). -/
theorem mergeAssets_conflict_and_disjoint_card :
    (∀ (cf : String → Bool) (n1 ip1 c1 n2 ip2 c2 f : String) (more : List Pkg)
        (out0 : Archive),
      ip1 ≠ ip2 → cf ("assets/" ++ f) = false →
      mergeAssets cf
          (⟨n1, ip1, some [vfile f c1]⟩ :: ⟨n2, ip2, some [vfile f c2]⟩ :: more)
          [] out0
        = ⟨[("assets/" ++ f, ip1)], out0 ++ [("assets/" ++ f, c1)],
            some (conflictMsg ip2 ("assets/" ++ f) ip1)⟩)
    ∧ (∀ pkgs : List Pkg, pkgs.all pkgClean = true →
        ((pkgs.map pkgAssetNames).join).Nodup →
        (mergeAssets noFail pkgs [] []).err = none
        ∧ (mergeAssets noFail pkgs [] []).files.length = (pkgs.map pkgFileCount).sum) := by
  constructor
  · intro cf n1 ip1 c1 n2 ip2 c2 f more out0 _ hcf
    simp [mergeAssets, assetWalk, vfile, lookupStr, hcf]
  · intro pkgs hcln hnd
    have h := mergeAssets_ok pkgs [] [] hcln hnd (by intro n _; simp [lookupStr])
    refine ⟨h.1, ?_⟩
    calc (mergeAssets noFail pkgs [] []).files.length
        = ((pkgs.map pkgAssetNames).join).length := by
          simpa using congrArg List.length h.2
      _ = (pkgs.map pkgFileCount).sum := by
          rw [List.length_join]
          exact sum_pkgAssetNames_length pkgs

/-- C5 witness: the two-conflicting-packages example and a concrete pair of
packages with disjoint asset trees (one and two files). -/
theorem mergeAssets_conflict_and_disjoint_card_witness :
    mergeAssets noFail
        (⟨"a", "example.com/a", some [vfile "a.txt" "AAA"]⟩
          :: ⟨"b", "example.com/b", some [vfile "a.txt" "BBB"]⟩ :: [])
        [] []
      = ⟨[("assets/" ++ "a.txt", "example.com/a")], [] ++ [("assets/" ++ "a.txt", "AAA")],
          some (conflictMsg "example.com/b" ("assets/" ++ "a.txt") "example.com/a")⟩
    ∧ ((mergeAssets noFail [pkgHello, pkgVids] [] []).err = none
      ∧ (mergeAssets noFail [pkgHello, pkgVids] [] []).files.length
        = ([pkgHello, pkgVids].map pkgFileCount).sum) :=
  ⟨mergeAssets_conflict_and_disjoint_card.1 noFail "a" "example.com/a" "AAA"
      "b" "example.com/b" "BBB" "a.txt" [] [] (by decide) rfl,
    mergeAssets_conflict_and_disjoint_card.2 [pkgHello, pkgVids] (by decide) (by decide)⟩

/-! ## Substring lemmas for the error-message claims -/

theorem listHasPfx_self (l : List Char) : listHasPfx l l = true := by
  induction l with
  | nil => rfl
  | cons c cs ih => simp [listHasPfx, ih]

theorem listContains_self (l : List Char) : listContains l l = true := by
  cases l with
  | nil => rfl
  | cons c cs => simp [listContains, listHasPfx_self]

theorem strContains_self (s : String) : strContains s s = true := listContains_self s.data

theorem listContains_append_right (pat s t : List Char)
    (h : listContains pat t = true) : listContains pat (s ++ t) = true := by
  induction s with
  | nil => simpa using h
  | cons c cs ih => simp [listContains, ih]

theorem strContains_append_right (s t pat : String) (h : strContains t pat = true) :
    strContains (s ++ t) pat = true := by
  unfold strContains at h ⊢
  rw [string_data_append]
  exact listContains_append_right pat.data s.data t.data h

/-! ## C3: which `androidAPIPath` errors carry the minimum version -/

/-- C3 counterexample: when the SDK platforms root cannot be opened, the
error message (line 475) does not include the minimum platform version that
was searched for. -/
theorem androidAPIPath_open_error_omits_min_cex :
    androidAPIPath '/' "sdk" (.openFail "permission denied")
      = .error "failed to find android SDK platform: permission denied"
    ∧ strContains "failed to find android SDK platform: permission denied"
        (toString minAndroidAPI) = false := by decide

/-- C3 amended: every `androidAPIPath` failure other than the two that carry
no version — the unset `ANDROID_HOME` message and the open failure of the
platforms root — includes the minimum platform version in its message; in
particular the listing failure and the no-qualifying-directory failure do. -/
theorem androidAPIPath_min_in_error_except_open (sep : Char) (sdk : String)
    (plat : PlatformsOpen) (msg : String) (hsdk : sdk ≠ "")
    (hopen : ∀ m, plat ≠ PlatformsOpen.openFail m)
    (h : androidAPIPath sep sdk plat = .error msg) :
    strContains msg (toString minAndroidAPI) = true := by
  unfold androidAPIPath at h
  rw [if_neg hsdk] at h
  cases plat with
  | openFail m => exact absurd rfl (hopen m)
  | readFail m =>
    have hm : ("failed to find android SDK platform (min API level: "
        ++ toString minAndroidAPI ++ "): " ++ m) = msg := Except.error.inj h
    rw [← hm]
    exact strContains_append_left _ _ _ (strContains_append_left _ _ _
      (strContains_append_right _ _ _ (strContains_self _)))
  | entries fis =>
    replace h : (match selectPlatform sep (joinUnder sep sdk "platforms") fis "" 0 with
      | (apiPath, apiVer) =>
        if apiVer = 0 then
          Except.error ("failed to find android SDK platform (min API level: "
            ++ toString minAndroidAPI ++ ") in " ++ joinUnder sep sdk "platforms")
        else Except.ok apiPath) = Except.error msg := h
    rcases hsel : selectPlatform sep (joinUnder sep sdk "platforms") fis "" 0 with ⟨p, v⟩
    rw [hsel] at h
    replace h : (if v = 0 then
        Except.error ("failed to find android SDK platform (min API level: "
          ++ toString minAndroidAPI ++ ") in " ++ joinUnder sep sdk "platforms")
      else Except.ok p) = Except.error msg := h
    by_cases hv : v = 0
    · rw [if_pos hv] at h
      have hm : ("failed to find android SDK platform (min API level: "
          ++ toString minAndroidAPI ++ ") in " ++ joinUnder sep sdk "platforms") = msg :=
        Except.error.inj h
      rw [← hm]
      exact strContains_append_left _ _ _ (strContains_append_left _ _ _
        (strContains_append_right _ _ _ (strContains_self _)))
    · rw [if_neg hv] at h
      exact absurd h (by simp)

/-- C3 amended witness: the no-qualifying-directory failure over an empty
listing carries the minimum version. -/
theorem androidAPIPath_min_in_error_except_open_witness :
    strContains ("failed to find android SDK platform (min API level: "
        ++ toString minAndroidAPI ++ ") in " ++ joinUnder '/' "sdk" "platforms")
      (toString minAndroidAPI) = true :=
  androidAPIPath_min_in_error_except_open '/' "sdk" (.entries []) _ (by decide)
    (fun m q => PlatformsOpen.noConfusion q) (by decide)

/-! ## C4: `androidAPIPath` selects the highest qualifying platform -/

theorem entryQualVer_min_le (fi : DirEntry) (n : Int) (h : entryQualVer fi = some n) :
    minAndroidAPI ≤ n := by
  cases hd : (fi.isDir && strStartsWith fi.name "android-") with
  | false => simp [entryQualVer, hd] at h
  | true =>
    cases hato : goAtoi (strDrop fi.name 8) with
    | none => simp [entryQualVer, hd, hato] at h
    | some m =>
      by_cases h15 : minAndroidAPI ≤ m
      · cases hj : fi.hasAndroidJar with
        | false => simp [entryQualVer, hd, hato, hj] at h
        | true =>
          have hmn : m = n := by simpa [entryQualVer, hd, hato, hj, h15] using h
          exact hmn ▸ h15
      · simp [entryQualVer, hd, hato, h15] at h

theorem maxQualVer_nonneg (es : List DirEntry) : 0 ≤ maxQualVer es := by
  induction es with
  | nil => simp [maxQualVer]
  | cons fi rest ih =>
    unfold maxQualVer
    cases h : entryQualVer fi with
    | none => exact ih
    | some n => exact le_max_of_le_right ih

theorem le_maxQualVer_of_mem (es : List DirEntry) (fi : DirEntry) (n : Int)
    (hmem : fi ∈ es) (h : entryQualVer fi = some n) : n ≤ maxQualVer es := by
  induction es with
  | nil => cases hmem
  | cons g rest ih =>
    rcases List.mem_cons.1 hmem with rfl | hmem'
    · unfold maxQualVer; rw [h]; exact le_max_left _ _
    · unfold maxQualVer
      cases hg : entryQualVer g with
      | none => exact ih hmem'
      | some m => exact le_trans (ih hmem') (le_max_right _ _)

theorem maxQualVer_eq_zero (es : List DirEntry)
    (h : ∀ fi ∈ es, entryQualVer fi = none) : maxQualVer es = 0 := by
  induction es with
  | nil => rfl
  | cons g rest ih =>
    unfold maxQualVer
    rw [h g (List.mem_cons_self _ _)]
    exact ih (fun fi hf => h fi (List.mem_cons_of_mem _ hf))

theorem selectPlatform_spec (sep : Char) (sdkDirName : String) (es : List DirEntry) :
    ∀ (apiPath : String) (apiVer : Int), 0 ≤ apiVer →
      (selectPlatform sep sdkDirName es apiPath apiVer).2 = max apiVer (maxQualVer es)
      ∧ ((selectPlatform sep sdkDirName es apiPath apiVer).2 = apiVer →
          (selectPlatform sep sdkDirName es apiPath apiVer).1 = apiPath)
      ∧ (apiVer < (selectPlatform sep sdkDirName es apiPath apiVer).2 →
          ∃ fi, fi ∈ es
            ∧ entryQualVer fi = some (selectPlatform sep sdkDirName es apiPath apiVer).2
            ∧ (selectPlatform sep sdkDirName es apiPath apiVer).1
                = joinUnder sep sdkDirName fi.name) := by
  induction es with
  | nil =>
    intro apiPath apiVer h0
    refine ⟨by simp [selectPlatform, maxQualVer, max_eq_left h0], fun _ => rfl,
      fun hlt => ?_⟩
    simp [selectPlatform] at hlt
  | cons fi rest ih =>
    intro apiPath apiVer h0
    cases hd : (fi.isDir && strStartsWith fi.name "android-") with
    | false =>
      have hq : entryQualVer fi = none := by simp [entryQualVer, hd]
      have hstep : selectPlatform sep sdkDirName (fi :: rest) apiPath apiVer
          = selectPlatform sep sdkDirName rest apiPath apiVer := by
        simp [selectPlatform, hd]
      have hmax : maxQualVer (fi :: rest) = maxQualVer rest := by
        simp [maxQualVer, hq]
      rw [hstep, hmax]
      obtain ⟨i1, i2, i3⟩ := ih apiPath apiVer h0
      refine ⟨i1, i2, fun hlt => ?_⟩
      obtain ⟨fj, hm, hp⟩ := i3 hlt
      exact ⟨fj, List.mem_cons_of_mem _ hm, hp⟩
    | true =>
      cases hato : goAtoi (strDrop fi.name 8) with
      | none =>
        have hq : entryQualVer fi = none := by simp [entryQualVer, hd, hato]
        have hstep : selectPlatform sep sdkDirName (fi :: rest) apiPath apiVer
            = selectPlatform sep sdkDirName rest apiPath apiVer := by
          simp [selectPlatform, hd, hato]
        have hmax : maxQualVer (fi :: rest) = maxQualVer rest := by
          simp [maxQualVer, hq]
        rw [hstep, hmax]
        obtain ⟨i1, i2, i3⟩ := ih apiPath apiVer h0
        refine ⟨i1, i2, fun hlt => ?_⟩
        obtain ⟨fj, hm, hp⟩ := i3 hlt
        exact ⟨fj, List.mem_cons_of_mem _ hm, hp⟩
      | some n =>
        by_cases hlt15 : n < minAndroidAPI
        · have hq : entryQualVer fi = none := by
            simp [entryQualVer, hd, hato, not_le.2 hlt15]
          have hstep : selectPlatform sep sdkDirName (fi :: rest) apiPath apiVer
              = selectPlatform sep sdkDirName rest apiPath apiVer := by
            simp [selectPlatform, hd, hato, hlt15]
          have hmax : maxQualVer (fi :: rest) = maxQualVer rest := by
            simp [maxQualVer, hq]
          rw [hstep, hmax]
          obtain ⟨i1, i2, i3⟩ := ih apiPath apiVer h0
          refine ⟨i1, i2, fun hlt => ?_⟩
          obtain ⟨fj, hm, hp⟩ := i3 hlt
          exact ⟨fj, List.mem_cons_of_mem _ hm, hp⟩
        · have h15 : minAndroidAPI ≤ n := not_lt.1 hlt15
          cases hj : fi.hasAndroidJar with
          | false =>
            have hq : entryQualVer fi = none := by simp [entryQualVer, hd, hato, hj]
            have hstep : selectPlatform sep sdkDirName (fi :: rest) apiPath apiVer
                = selectPlatform sep sdkDirName rest apiPath apiVer := by
              simp [selectPlatform, hd, hato, hlt15, hj]
            have hmax : maxQualVer (fi :: rest) = maxQualVer rest := by
              simp [maxQualVer, hq]
            rw [hstep, hmax]
            obtain ⟨i1, i2, i3⟩ := ih apiPath apiVer h0
            refine ⟨i1, i2, fun hlt => ?_⟩
            obtain ⟨fj, hm, hp⟩ := i3 hlt
            exact ⟨fj, List.mem_cons_of_mem _ hm, hp⟩
          | true =>
            have hq : entryQualVer fi = some n := by
              simp [entryQualVer, hd, hato, hj, h15]
            have hmax : maxQualVer (fi :: rest) = max n (maxQualVer rest) := by
              simp [maxQualVer, hq]
            by_cases hav : apiVer < n
            · have hstep : selectPlatform sep sdkDirName (fi :: rest) apiPath apiVer
                  = selectPlatform sep sdkDirName rest (joinUnder sep sdkDirName fi.name) n := by
                simp [selectPlatform, hd, hato, hlt15, hj, hav]
              rw [hstep, hmax]
              have hn0 : (0:Int) ≤ n := le_trans (by norm_num [minAndroidAPI]) h15
              obtain ⟨i1, i2, i3⟩ := ih (joinUnder sep sdkDirName fi.name) n hn0
              have hnle : n ≤ (selectPlatform sep sdkDirName rest
                  (joinUnder sep sdkDirName fi.name) n).2 := by
                rw [i1]; exact le_max_left _ _
              refine ⟨?_, ?_, ?_⟩
              · rw [i1, ← max_assoc, max_eq_right (le_of_lt hav)]
              · intro hveq
                exact absurd (lt_of_lt_of_le hav hnle)
                  (by rw [hveq]; exact lt_irrefl _)
              · intro _
                rcases eq_or_lt_of_le hnle with heq | hlt2
                · exact ⟨fi, List.mem_cons_self _ _, by rw [← heq]; exact hq, i2 heq.symm⟩
                · obtain ⟨fj, hm, hp1, hp2⟩ := i3 hlt2
                  exact ⟨fj, List.mem_cons_of_mem _ hm, hp1, hp2⟩
            · have hna : n ≤ apiVer := not_lt.1 hav
              have hstep : selectPlatform sep sdkDirName (fi :: rest) apiPath apiVer
                  = selectPlatform sep sdkDirName rest apiPath apiVer := by
                simp [selectPlatform, hd, hato, hlt15, hj, hav]
              rw [hstep, hmax]
              obtain ⟨i1, i2, i3⟩ := ih apiPath apiVer h0
              refine ⟨?_, i2, fun hlt => ?_⟩
              · rw [i1, ← max_assoc, max_eq_left hna]
              · obtain ⟨fj, hm, hp⟩ := i3 hlt
                exact ⟨fj, List.mem_cons_of_mem _ hm, hp⟩

theorem androidAPIPath_entries (sep : Char) (sdk : String) (es : List DirEntry)
    (hsdk : sdk ≠ "") :
    androidAPIPath sep sdk (.entries es)
      = (if (selectPlatform sep (joinUnder sep sdk "platforms") es "" 0).2 = 0 then
          Except.error ("failed to find android SDK platform (min API level: "
            ++ toString minAndroidAPI ++ ") in " ++ joinUnder sep sdk "platforms")
        else Except.ok (selectPlatform sep (joinUnder sep sdk "platforms") es "" 0).1) := by
  unfold androidAPIPath
  rw [if_neg hsdk]

/-- C4: over any listing of the platforms directory, `androidAPIPath` fails
exactly when no subdirectory qualifies (directory named `android-<n>` with
`n ≥ minAndroidAPI` containing `android.jar`) and otherwise returns the
directory of some qualifying entry whose version is the maximum qualifying
version — every qualifying version is `≤` it. -/
theorem androidAPIPath_selects_highest (sep : Char) (sdk : String) (es : List DirEntry)
    (hsdk : sdk ≠ "") :
    ((∀ fi ∈ es, entryQualVer fi = none) →
      androidAPIPath sep sdk (.entries es)
        = .error ("failed to find android SDK platform (min API level: "
            ++ toString minAndroidAPI ++ ") in " ++ joinUnder sep sdk "platforms"))
    ∧ (∀ fi ∈ es, ∀ n : Int, entryQualVer fi = some n →
        ∃ fj ∈ es, entryQualVer fj = some (maxQualVer es)
          ∧ n ≤ maxQualVer es
          ∧ androidAPIPath sep sdk (.entries es)
              = .ok (joinUnder sep (joinUnder sep sdk "platforms") fj.name)) := by
  obtain ⟨h1, h2, h3⟩ := selectPlatform_spec sep (joinUnder sep sdk "platforms") es "" 0 le_rfl
  have hv : (selectPlatform sep (joinUnder sep sdk "platforms") es "" 0).2
      = maxQualVer es := by
    rw [h1]; exact max_eq_right (maxQualVer_nonneg es)
  rw [androidAPIPath_entries sep sdk es hsdk]
  constructor
  · intro hall
    rw [if_pos (by rw [hv, maxQualVer_eq_zero es hall])]
  · intro fi hmem n hq
    have h15 : minAndroidAPI ≤ n := entryQualVer_min_le fi n hq
    have hpos : (0:Int) < n := lt_of_lt_of_le (by norm_num [minAndroidAPI]) h15
    have hle : n ≤ maxQualVer es := le_maxQualVer_of_mem es fi n hmem hq
    have hvpos : (0:Int) < (selectPlatform sep (joinUnder sep sdk "platforms") es "" 0).2 := by
      rw [hv]; exact lt_of_lt_of_le hpos hle
    obtain ⟨fj, hm, hp1, hp2⟩ := h3 hvpos
    refine ⟨fj, hm, ?_, hle, ?_⟩
    · rw [← hv]; exact hp1
    · rw [if_neg (ne_of_gt hvpos), hp2]

/-- C4 witness: versions {14, 19, 21} with minimum 15 select a maximal
qualifying entry (21), and a lone version 10 fails with the
minimum-mentioning error. -/
theorem androidAPIPath_selects_highest_witness :
    (∃ fj ∈ [e14, e19, e21], entryQualVer fj = some (maxQualVer [e14, e19, e21])
      ∧ (19:Int) ≤ maxQualVer [e14, e19, e21]
      ∧ androidAPIPath '/' "sdk" (.entries [e14, e19, e21])
          = .ok (joinUnder '/' (joinUnder '/' "sdk" "platforms") fj.name))
    ∧ androidAPIPath '/' "sdk" (.entries [⟨"android-10", true, true⟩])
        = .error ("failed to find android SDK platform (min API level: "
            ++ toString minAndroidAPI ++ ") in " ++ joinUnder '/' "sdk" "platforms") :=
  ⟨(androidAPIPath_selects_highest '/' "sdk" [e14, e19, e21] (by decide)).2
      e19 (by simp) 19 (by decide),
    (androidAPIPath_selects_highest '/' "sdk" [⟨"android-10", true, true⟩] (by decide)).1
      (by decide)⟩
